import Mathlib

/-! Shallow embedding of the estimation and vision-simulation core of
`robot_localization_display.py` (class `RobotLocalizationDisplay`), with
proofs about the properties claimed for it.

Python floats are idealized as real numbers; `math.pi` becomes `Real.pi`;
`math.atan2 dy dx` becomes the principal argument of the complex number
`dx + dy*I`; the NetworkTables channel is modelled as a record of optional
values (a missing key yields the default exactly as `getNumber(key, default)`
does); the per-tick wall-clock increment `dt` is an input of the update
function rather than being measured from a clock. -/

namespace RobotDisplay

/-! Constants from the top of the source file. -/

noncomputable def SCREEN_WIDTH : ℝ := 1340
noncomputable def SCREEN_HEIGHT : ℝ := 670
noncomputable def FIELD_WIDTH_M : ℝ := 16.46
noncomputable def ROBOT_WIDTH_M : ℝ := 0.61
noncomputable def ROBOT_LENGTH_M : ℝ := 0.81
noncomputable def VISION_FOV_H : ℝ := 62.5
noncomputable def VISION_MAX_DISTANCE_M : ℝ := 1.85
noncomputable def TURRET_SMOOTHING : ℝ := 0.15
noncomputable def APRILTAG_SIZE_M : ℝ := 0.2
noncomputable def APRILTAG_MARGIN_M : ℝ := 0.3

/-! The angle-normalization while loops.  The source normalizes an angle with
two consecutive loops, `while a > c: a -= 2*c` followed by
`while a < -c: a += 2*c`, instantiated with `c = math.pi` for headings and
`c = 180` for the turret angle.  Each loop is embedded as a well-founded
recursion; the guard `0 < c` (true at both instantiations) makes the
recursion total for every real parameter. -/

theorem wrap_measure_lt (c θ : ℝ) (h : 0 < c ∧ c < θ) :
    (⌈(θ - 2 * c - c) / (2 * c)⌉).toNat < (⌈(θ - c) / (2 * c)⌉).toNat := by
  obtain ⟨hc, hθ⟩ := h
  have h2c : (0 : ℝ) < 2 * c := by linarith
  have h2c' : (2 : ℝ) * c ≠ 0 := ne_of_gt h2c
  have hkey : (θ - 2 * c - c) / (2 * c) = (θ - c) / (2 * c) - 1 := by
    field_simp
    ring
  have hpos : 0 < ⌈(θ - c) / (2 * c)⌉ :=
    Int.ceil_pos.mpr (div_pos (by linarith) h2c)
  rw [hkey, Int.ceil_sub_one]
  omega

noncomputable def wrapSub (c : ℝ) (θ : ℝ) : ℝ :=
  if h : 0 < c ∧ c < θ then wrapSub c (θ - 2 * c) else θ
termination_by (⌈(θ - c) / (2 * c)⌉).toNat
decreasing_by exact wrap_measure_lt c θ h

noncomputable def wrapAdd (c : ℝ) (θ : ℝ) : ℝ :=
  if h : 0 < c ∧ θ < -c then wrapAdd c (θ + 2 * c) else θ
termination_by (⌈(-θ - c) / (2 * c)⌉).toNat
decreasing_by
  have h' : 0 < c ∧ c < -θ := ⟨h.1, by linarith [h.2]⟩
  have heq : -(θ + 2 * c) - c = -θ - 2 * c - c := by ring
  rw [heq]
  exact wrap_measure_lt c (-θ) h'

theorem wrapSub_eq (c θ : ℝ) :
    wrapSub c θ = if 0 < c ∧ c < θ then wrapSub c (θ - 2 * c) else θ := by
  rw [wrapSub, dite_eq_ite]

theorem wrapAdd_eq (c θ : ℝ) :
    wrapAdd c θ = if 0 < c ∧ θ < -c then wrapAdd c (θ + 2 * c) else θ := by
  rw [wrapAdd, dite_eq_ite]

theorem wrapSub_eq_self (c θ : ℝ) (h : θ ≤ c) : wrapSub c θ = θ := by
  rw [wrapSub_eq, if_neg]
  rintro ⟨h1, h2⟩
  linarith

theorem wrapAdd_eq_self (c θ : ℝ) (h : -c ≤ θ) : wrapAdd c θ = θ := by
  rw [wrapAdd_eq, if_neg]
  rintro ⟨h1, h2⟩
  linarith

theorem wrapSub_le_c (c : ℝ) (hc : 0 < c) (θ : ℝ) : wrapSub c θ ≤ c := by
  rw [wrapSub_eq]
  by_cases h : 0 < c ∧ c < θ
  · rw [if_pos h]
    exact wrapSub_le_c c hc (θ - 2 * c)
  · rw [if_neg h]
    rcases not_and_or.mp h with h1 | h2
    · exact absurd hc h1
    · exact not_lt.mp h2
termination_by (⌈(θ - c) / (2 * c)⌉).toNat
decreasing_by exact wrap_measure_lt c θ h

theorem wrapSub_neg_lt (c : ℝ) (hc : 0 < c) (θ : ℝ) (h : -c < θ) :
    -c < wrapSub c θ := by
  rw [wrapSub_eq]
  by_cases hb : 0 < c ∧ c < θ
  · rw [if_pos hb]
    exact wrapSub_neg_lt c hc (θ - 2 * c) (by linarith [hb.2])
  · rw [if_neg hb]
    exact h
termination_by (⌈(θ - c) / (2 * c)⌉).toNat
decreasing_by exact wrap_measure_lt c θ hb

theorem wrapAdd_ge_neg (c : ℝ) (hc : 0 < c) (θ : ℝ) : -c ≤ wrapAdd c θ := by
  rw [wrapAdd_eq]
  by_cases h : 0 < c ∧ θ < -c
  · rw [if_pos h]
    exact wrapAdd_ge_neg c hc (θ + 2 * c)
  · rw [if_neg h]
    rcases not_and_or.mp h with h1 | h2
    · exact absurd hc h1
    · exact not_lt.mp h2
termination_by (⌈(-θ - c) / (2 * c)⌉).toNat
decreasing_by
  have h' : 0 < c ∧ c < -θ := ⟨h.1, by linarith [h.2]⟩
  have heq : -(θ + 2 * c) - c = -θ - 2 * c - c := by ring
  rw [heq]
  exact wrap_measure_lt c (-θ) h'

theorem wrapAdd_lt_c (c : ℝ) (hc : 0 < c) (θ : ℝ) (h : θ < c) :
    wrapAdd c θ < c := by
  rw [wrapAdd_eq]
  by_cases hb : 0 < c ∧ θ < -c
  · rw [if_pos hb]
    exact wrapAdd_lt_c c hc (θ + 2 * c) (by linarith [hb.2])
  · rw [if_neg hb]
    exact h
termination_by (⌈(-θ - c) / (2 * c)⌉).toNat
decreasing_by
  have h' : 0 < c ∧ c < -θ := ⟨hb.1, by linarith [hb.2]⟩
  have heq : -(θ + 2 * c) - c = -θ - 2 * c - c := by ring
  rw [heq]
  exact wrap_measure_lt c (-θ) h'

theorem wrapSub_sub_int (c θ : ℝ) : ∃ n : ℤ, wrapSub c θ = θ - 2 * c * n := by
  rw [wrapSub_eq]
  by_cases h : 0 < c ∧ c < θ
  · rw [if_pos h]
    obtain ⟨n, hn⟩ := wrapSub_sub_int c (θ - 2 * c)
    refine ⟨n + 1, ?_⟩
    rw [hn]
    push_cast
    ring
  · rw [if_neg h]
    exact ⟨0, by simp⟩
termination_by (⌈(θ - c) / (2 * c)⌉).toNat
decreasing_by exact wrap_measure_lt c θ h

theorem wrapAdd_add_int (c θ : ℝ) : ∃ n : ℤ, wrapAdd c θ = θ + 2 * c * n := by
  rw [wrapAdd_eq]
  by_cases h : 0 < c ∧ θ < -c
  · rw [if_pos h]
    obtain ⟨n, hn⟩ := wrapAdd_add_int c (θ + 2 * c)
    refine ⟨n + 1, ?_⟩
    rw [hn]
    push_cast
    ring
  · rw [if_neg h]
    exact ⟨0, by simp⟩
termination_by (⌈(-θ - c) / (2 * c)⌉).toNat
decreasing_by
  have h' : 0 < c ∧ c < -θ := ⟨h.1, by linarith [h.2]⟩
  have heq : -(θ + 2 * c) - c = -θ - 2 * c - c := by ring
  rw [heq]
  exact wrap_measure_lt c (-θ) h'

/-! The two normalizations appearing in the source: radians for headings,
degrees for the turret angle. -/

noncomputable def normalizeRad (θ : ℝ) : ℝ := wrapAdd Real.pi (wrapSub Real.pi θ)

noncomputable def normalizeDeg (θ : ℝ) : ℝ := wrapAdd 180 (wrapSub 180 θ)

theorem wrapNorm_mem (c : ℝ) (hc : 0 < c) (θ : ℝ) :
    -c ≤ wrapAdd c (wrapSub c θ) ∧ wrapAdd c (wrapSub c θ) ≤ c := by
  refine ⟨wrapAdd_ge_neg c hc _, ?_⟩
  have h1 : wrapSub c θ ≤ c := wrapSub_le_c c hc θ
  by_cases h : -c ≤ wrapSub c θ
  · rw [wrapAdd_eq_self c _ h]
    exact h1
  · exact le_of_lt (wrapAdd_lt_c c hc _ (lt_of_lt_of_le (not_le.mp h) (by linarith)))

theorem wrapNorm_eq_self (c θ : ℝ) (h1 : -c ≤ θ) (h2 : θ ≤ c) :
    wrapAdd c (wrapSub c θ) = θ := by
  rw [wrapSub_eq_self c θ h2, wrapAdd_eq_self c θ h1]

theorem wrapNorm_add_int (c θ : ℝ) :
    ∃ n : ℤ, wrapAdd c (wrapSub c θ) = θ + 2 * c * n := by
  obtain ⟨n1, hn1⟩ := wrapSub_sub_int c θ
  obtain ⟨n2, hn2⟩ := wrapAdd_add_int c (wrapSub c θ)
  refine ⟨n2 - n1, ?_⟩
  rw [hn2, hn1]
  push_cast
  ring

theorem wrapNorm_period (c : ℝ) (hc : 0 < c) (θ : ℝ) (k : ℤ)
    (h1 : -c < wrapAdd c (wrapSub c θ)) (h2 : wrapAdd c (wrapSub c θ) < c) :
    wrapAdd c (wrapSub c (θ + 2 * c * k)) = wrapAdd c (wrapSub c θ) := by
  obtain ⟨m, hm⟩ := wrapNorm_add_int c θ
  obtain ⟨m', hm'⟩ := wrapNorm_add_int c (θ + 2 * c * k)
  have hmem := wrapNorm_mem c hc (θ + 2 * c * k)
  have hj : ((k + m' - m : ℤ) : ℝ) * (2 * c) =
      wrapAdd c (wrapSub c (θ + 2 * c * k)) - wrapAdd c (wrapSub c θ) := by
    rw [hm, hm']
    push_cast
    ring
  have habs : |wrapAdd c (wrapSub c (θ + 2 * c * k)) - wrapAdd c (wrapSub c θ)| <
      2 * c := by
    rw [abs_lt]
    constructor <;> nlinarith [hmem.1, hmem.2]
  have hz : (k + m' - m : ℤ) = 0 := by
    by_contra hne
    have hone : (1 : ℝ) ≤ |((k + m' - m : ℤ) : ℝ)| := by
      rw [← Int.cast_abs]
      exact_mod_cast Int.one_le_abs hne
    rw [← hj, abs_mul, abs_of_pos (by linarith : (0 : ℝ) < 2 * c)] at habs
    nlinarith
  have : ((k + m' - m : ℤ) : ℝ) = 0 := by exact_mod_cast hz
  rw [this, zero_mul] at hj
  linarith [hj.symm]

theorem normalizeRad_eq_self (θ : ℝ) (h1 : -Real.pi ≤ θ) (h2 : θ ≤ Real.pi) :
    normalizeRad θ = θ :=
  wrapNorm_eq_self Real.pi θ h1 h2

theorem normalizeRad_zero : normalizeRad 0 = 0 :=
  normalizeRad_eq_self 0 (by linarith [Real.pi_pos]) (le_of_lt Real.pi_pos)

/-! Data model. -/

inductive Alliance
  | red
  | blue
deriving DecidableEq

/-- One simulated AprilTag, as built by `initialize_apriltags` in the source
(a dict with keys id, x, y, size). -/
structure Tag where
  id : ℤ
  x : ℝ
  y : ℝ
  size : ℝ

/-- The dict built for the closest tag inside `check_apriltag_in_fov`. -/
structure Detection where
  id : ℤ
  yaw : ℝ
  pitch : ℝ
  distance : ℝ
  area : ℝ
  tag_x : ℝ
  tag_y : ℝ

/-- One value written to or read from NetworkTables. -/
inductive NTValue
  | bool (b : Bool)
  | num (x : ℝ)

/-- What the NetworkTables channel supplies on one tick.  Each field is the
optional value behind one `getNumber` / `getBoolean` call of
`update_pose_data`; `none` means the key is absent and the call returns the
default passed at the read site. -/
structure Telemetry where
  poseX : Option ℝ
  poseY : Option ℝ
  poseTheta : Option ℝ
  vxIn : Option ℝ
  vyIn : Option ℝ
  omegaIn : Option ℝ
  turretIn : Option ℝ
  hasTargetIn : Option Bool
  yawIn : Option ℝ
  pitchIn : Option ℝ
  areaIn : Option ℝ
  areaIdIn : Option ℝ

/-- The mutable attributes of `RobotLocalizationDisplay` that take part in the
estimation / vision pipeline (rendering-only attributes are omitted;
`last_update_time` is replaced by passing `dt` to the update directly).
`odometry_active` is the attribute created only by the escape handler; it is
`none` until that handler first assigns it. -/
structure DisplayState where
  robot_x : ℝ
  robot_y : ℝ
  robot_theta : ℝ
  smoothed_x : ℝ
  smoothed_y : ℝ
  smoothed_theta : ℝ
  prev_theta : ℝ
  robot_vx : ℝ
  robot_vy : ℝ
  robot_omega : ℝ
  smoothed_vx : ℝ
  smoothed_vy : ℝ
  smoothed_omega : ℝ
  turret_angle : ℝ
  smoothed_turret_angle : ℝ
  has_target : Bool
  target_yaw : ℝ
  target_pitch : ℝ
  target_area : ℝ
  target_id : ℝ
  detected_target : Option Detection
  menu_active : Bool
  simulation_active : Bool
  odometry_active : Option Bool
  alliance : Option Alliance
  apriltag_positions : Option (List Tag)

/-- The attribute values set in `__init__`. -/
noncomputable def initState : DisplayState where
  robot_x := 0
  robot_y := 0
  robot_theta := 0
  smoothed_x := 0
  smoothed_y := 0
  smoothed_theta := 0
  prev_theta := 0
  robot_vx := 0
  robot_vy := 0
  robot_omega := 0
  smoothed_vx := 0
  smoothed_vy := 0
  smoothed_omega := 0
  turret_angle := 0
  smoothed_turret_angle := 0
  has_target := false
  target_yaw := 0
  target_pitch := 0
  target_area := 0
  target_id := 0
  detected_target := none
  menu_active := true
  simulation_active := false
  odometry_active := none
  alliance := none
  apriltag_positions := none

/-! Field geometry and pose update. -/

/-- Half of the diagonal of the robot footprint, as computed inside
`clamp_to_field_bounds`. -/
noncomputable def halfDiagonal : ℝ :=
  Real.sqrt (ROBOT_LENGTH_M ^ 2 + ROBOT_WIDTH_M ^ 2) / 2

/-- `clamp_to_field_bounds`: keep the robot center inside the field, inset by
the footprint half-diagonal on every side. -/
noncomputable def clamp_to_field_bounds (x y : ℝ) : ℝ × ℝ :=
  let field_min_x : ℝ := 0
  let field_max_x : ℝ := FIELD_WIDTH_M
  let field_min_y : ℝ := 0
  let field_max_y : ℝ := FIELD_WIDTH_M * (SCREEN_HEIGHT / SCREEN_WIDTH)
  (max (field_min_x + halfDiagonal) (min (field_max_x - halfDiagonal) x),
   max (field_min_y + halfDiagonal) (min (field_max_y - halfDiagonal) y))

/-- `update_pose_data`: one tick of the pose / velocity / smoothing update.
Reads of `getNumber(key, default)` become `Option.getD`; in Menu mode
(`simulation_active = false`) the raw sample is the current pose.  The
velocity overrides from the `VX`/`VY`/`Omega` keys are applied
unconditionally, exactly as in the source. -/
noncomputable def update_pose_data (s : DisplayState) (t : Telemetry) (dt : ℝ) :
    DisplayState :=
  let raw_x := if s.simulation_active then t.poseX.getD 0.5 else s.robot_x
  let raw_y := if s.simulation_active then t.poseY.getD 0.5 else s.robot_y
  let new_theta := if s.simulation_active then t.poseTheta.getD 0 else s.robot_theta
  let new_x := (clamp_to_field_bounds raw_x raw_y).1
  let new_y := (clamp_to_field_bounds raw_x raw_y).2
  let fd_vx := if dt > 0.001 then (new_x - s.robot_x) / dt else s.robot_vx
  let fd_vy := if dt > 0.001 then (new_y - s.robot_y) / dt else s.robot_vy
  let fd_omega :=
    if dt > 0.001 then normalizeRad (new_theta - s.prev_theta) / dt
    else s.robot_omega
  let new_vx := match t.vxIn, t.vyIn with
    | some a, some _ => a
    | _, _ => fd_vx
  let new_vy := match t.vxIn, t.vyIn with
    | some _, some b => b
    | _, _ => fd_vy
  let new_omega := match t.omegaIn with
    | some w => w
    | none => fd_omega
  let smoothing_factor : ℝ := 0.3
  let new_turret_angle := t.turretIn.getD 0
  { s with
    robot_x := new_x
    robot_y := new_y
    robot_theta := new_theta
    prev_theta := new_theta
    robot_vx := new_vx
    robot_vy := new_vy
    robot_omega := new_omega
    smoothed_x := smoothing_factor * new_x + (1 - smoothing_factor) * s.smoothed_x
    smoothed_y := smoothing_factor * new_y + (1 - smoothing_factor) * s.smoothed_y
    smoothed_theta :=
      s.smoothed_theta + smoothing_factor * normalizeRad (new_theta - s.smoothed_theta)
    smoothed_vx := smoothing_factor * new_vx + (1 - smoothing_factor) * s.smoothed_vx
    smoothed_vy := smoothing_factor * new_vy + (1 - smoothing_factor) * s.smoothed_vy
    smoothed_omega :=
      smoothing_factor * new_omega + (1 - smoothing_factor) * s.smoothed_omega
    turret_angle := new_turret_angle
    smoothed_turret_angle :=
      s.smoothed_turret_angle +
        TURRET_SMOOTHING * normalizeDeg (new_turret_angle - s.smoothed_turret_angle)
    has_target := t.hasTargetIn.getD false
    target_yaw := t.yawIn.getD 0
    target_pitch := t.pitchIn.getD 0
    target_area := t.areaIn.getD 0
    target_id := t.areaIdIn.getD (-1) }

/-! Alliance layout and state transitions. -/

/-- `initialize_apriltags`: two tags along the bottom edge; the if-test of the
source compares the alliance attribute against the blue literal, anything
else (red, or no selection) takes the red layout.  The list keeps the dict
insertion order of the source: bottom_left first, bottom_right second. -/
noncomputable def init_apriltags (alliance : Option Alliance) : List Tag :=
  if alliance = some Alliance.blue then
    [{ id := 2, x := APRILTAG_MARGIN_M, y := APRILTAG_MARGIN_M, size := APRILTAG_SIZE_M },
     { id := 1, x := FIELD_WIDTH_M - APRILTAG_MARGIN_M, y := APRILTAG_MARGIN_M,
       size := APRILTAG_SIZE_M }]
  else
    [{ id := 1, x := APRILTAG_MARGIN_M, y := APRILTAG_MARGIN_M, size := APRILTAG_SIZE_M },
     { id := 2, x := FIELD_WIDTH_M - APRILTAG_MARGIN_M, y := APRILTAG_MARGIN_M,
       size := APRILTAG_SIZE_M }]

/-- `setup_robot_for_alliance`: initialize the tag layout, place the pose at
the fixed start (0.5, 0.5, 0), copy it into the smoothed position and
heading, zero the smoothed turret angle, and start the simulation.  The
alliance argument of the source is only printed; the tag layout is built
from the alliance attribute, which the caller assigns beforehand. -/
noncomputable def setup_robot_for_alliance (s : DisplayState) : DisplayState :=
  { s with
    apriltag_positions := some (init_apriltags s.alliance)
    robot_x := 0.5
    robot_y := 0.5
    robot_theta := 0
    smoothed_x := 0.5
    smoothed_y := 0.5
    smoothed_theta := 0
    prev_theta := 0
    smoothed_turret_angle := 0
    simulation_active := true
    menu_active := false }

/-- The menu click handler: assign the alliance attribute, then run
`setup_robot_for_alliance`. -/
noncomputable def select_alliance (s : DisplayState) (a : Alliance) : DisplayState :=
  setup_robot_for_alliance { s with alliance := some a }

/-- The ESCAPE branch of `handle_events` taken while the menu is not active:
set `menu_active`, assign the `odometry_active` attribute (which nothing
else ever reads), and clear the alliance selection.  Note that it assigns
`odometry_active`, not `simulation_active`, and does not touch
`apriltag_positions`. -/
noncomputable def escape_to_menu (s : DisplayState) : DisplayState :=
  { s with
    menu_active := true
    odometry_active := some false
    alliance := none }

/-! Vision simulation. -/

/-- `math.atan2 y x`, idealized as the principal argument of `x + y*I`. -/
noncomputable def atan2 (y x : ℝ) : ℝ := Complex.arg (x + y * Complex.I)

/-- Euclidean distance from the point (rx, ry) to a tag. -/
noncomputable def tagDist (rx ry : ℝ) (t : Tag) : ℝ :=
  Real.sqrt ((t.x - rx) ^ 2 + (t.y - ry) ^ 2)

/-- Signed angular offset, in degrees, of the bearing toward a tag from the
boresight angle, normalized exactly as the loop body does. -/
noncomputable def tagOffsetDeg (rx ry bore : ℝ) (t : Tag) : ℝ :=
  normalizeRad (atan2 (t.y - ry) (t.x - rx) - bore) * 180 / Real.pi

/-- The filter a tag must survive inside the loop of
`check_apriltag_in_fov`: within maximum range, and within half the
horizontal FOV of the boresight. -/
def tagPasses (rx ry bore : ℝ) (t : Tag) : Prop :=
  tagDist rx ry t ≤ VISION_MAX_DISTANCE_M ∧
    |tagOffsetDeg rx ry bore t| ≤ VISION_FOV_H / 2

/-- The closest-tag dict built inside the loop for a surviving tag. -/
noncomputable def mkDetection (rx ry bore : ℝ) (t : Tag) : Detection where
  id := t.id
  yaw := tagOffsetDeg rx ry bore t
  pitch := 0
  distance := tagDist rx ry t
  area := max 0.1 (min 100.0 (t.size / tagDist rx ry t * 100))
  tag_x := t.x
  tag_y := t.y

/-- One iteration of the tag loop: skip the tag if out of range, skip it if
outside the FOV, and otherwise replace the best candidate exactly when the
distance is strictly smaller (the initial `closest_distance = inf` is
modelled by `none` accepting any surviving tag). -/
noncomputable def considerTag (rx ry bore : ℝ) (best : Option Detection) (t : Tag) :
    Option Detection :=
  if VISION_MAX_DISTANCE_M < tagDist rx ry t then best
  else if |tagOffsetDeg rx ry bore t| ≤ VISION_FOV_H / 2 then
    match best with
    | none => some (mkDetection rx ry bore t)
    | some b =>
      if tagDist rx ry t < b.distance then some (mkDetection rx ry bore t)
      else some b
  else best

/-- The whole tag loop of `check_apriltag_in_fov`, in layout order. -/
noncomputable def scanTags (rx ry bore : ℝ) (tags : List Tag) : Option Detection :=
  tags.foldl (considerTag rx ry bore) none

/-- `check_apriltag_in_fov`: when the simulation is not active publish only
`HasTarget = False` and return; otherwise scan the tags from the smoothed
position with boresight `smoothed_theta + radians(turret_angle)` and publish
either the detection or the explicit zeroed no-target record.  The second
component lists the NetworkTables writes of the call in order. -/
noncomputable def check_apriltag_in_fov (s : DisplayState) :
    DisplayState × List (String × NTValue) :=
  if s.simulation_active = false then
    (s, [("HasTarget", NTValue.bool false)])
  else
    match scanTags s.smoothed_x s.smoothed_y
        (s.smoothed_theta + s.turret_angle * Real.pi / 180)
        (s.apriltag_positions.getD []) with
    | some d =>
      ({ s with
          detected_target := some d
          has_target := true
          target_yaw := d.yaw
          target_pitch := d.pitch
          target_area := d.area
          target_id := (d.id : ℝ) },
       [("HasTarget", NTValue.bool true),
        ("Target_Yaw", NTValue.num d.yaw),
        ("Target_Pitch", NTValue.num d.pitch),
        ("Target_Area", NTValue.num d.area),
        ("Target_ID", NTValue.num (d.id : ℝ)),
        ("Target_Distance", NTValue.num d.distance)])
    | none =>
      ({ s with
          detected_target := none
          has_target := false
          target_id := -1 },
       [("HasTarget", NTValue.bool false),
        ("Target_Yaw", NTValue.num 0),
        ("Target_Pitch", NTValue.num 0),
        ("Target_Area", NTValue.num 0),
        ("Target_ID", NTValue.num (-1)),
        ("Target_Distance", NTValue.num 0)])

/-! Helper lemmas about one iteration of the tag loop. -/

theorem mkDetection_distance (rx ry bore : ℝ) (t : Tag) :
    (mkDetection rx ry bore t).distance = tagDist rx ry t := rfl

theorem mkDetection_yaw (rx ry bore : ℝ) (t : Tag) :
    (mkDetection rx ry bore t).yaw = tagOffsetDeg rx ry bore t := rfl

theorem considerTag_skip (rx ry bore : ℝ) (b : Option Detection) (t : Tag)
    (h : VISION_MAX_DISTANCE_M < tagDist rx ry t) :
    considerTag rx ry bore b t = b := by
  unfold considerTag
  rw [if_pos h]

theorem considerTag_not_pass (rx ry bore : ℝ) (b : Option Detection) (t : Tag)
    (h : ¬tagPasses rx ry bore t) :
    considerTag rx ry bore b t = b := by
  unfold considerTag
  by_cases h1 : VISION_MAX_DISTANCE_M < tagDist rx ry t
  · rw [if_pos h1]
  · rw [if_neg h1, if_neg]
    intro h2
    exact h ⟨not_lt.mp h1, h2⟩

theorem considerTag_none_pass (rx ry bore : ℝ) (t : Tag)
    (h : tagPasses rx ry bore t) :
    considerTag rx ry bore none t = some (mkDetection rx ry bore t) := by
  unfold considerTag
  rw [if_neg (not_lt.mpr h.1), if_pos h.2]

theorem considerTag_keep (rx ry bore : ℝ) (b : Detection) (t : Tag)
    (hnl : ¬tagDist rx ry t < b.distance) :
    considerTag rx ry bore (some b) t = some b := by
  unfold considerTag
  by_cases h1 : VISION_MAX_DISTANCE_M < tagDist rx ry t
  · rw [if_pos h1]
  · rw [if_neg h1]
    by_cases h2 : |tagOffsetDeg rx ry bore t| ≤ VISION_FOV_H / 2
    · rw [if_pos h2]
      show (if tagDist rx ry t < b.distance then some (mkDetection rx ry bore t)
        else some b) = some b
      rw [if_neg hnl]
    · rw [if_neg h2]

theorem considerTag_replace (rx ry bore : ℝ) (b : Detection) (t : Tag)
    (hp : tagPasses rx ry bore t) (hlt : tagDist rx ry t < b.distance) :
    considerTag rx ry bore (some b) t = some (mkDetection rx ry bore t) := by
  unfold considerTag
  rw [if_neg (not_lt.mpr hp.1), if_pos hp.2]
  show (if tagDist rx ry t < b.distance then some (mkDetection rx ry bore t)
    else some b) = some (mkDetection rx ry bore t)
  rw [if_pos hlt]

theorem considerTag_some (rx ry bore : ℝ) (b₀ : Detection) (t : Tag) :
    ∃ b₁, considerTag rx ry bore (some b₀) t = some b₁ ∧
      b₁.distance ≤ b₀.distance ∧
      (tagPasses rx ry bore t → b₁.distance ≤ tagDist rx ry t) := by
  by_cases h1 : VISION_MAX_DISTANCE_M < tagDist rx ry t
  · exact ⟨b₀, considerTag_skip rx ry bore _ t h1, le_refl _,
      fun hp => absurd hp.1 (not_le.mpr h1)⟩
  · by_cases h2 : |tagOffsetDeg rx ry bore t| ≤ VISION_FOV_H / 2
    · by_cases h3 : tagDist rx ry t < b₀.distance
      · refine ⟨mkDetection rx ry bore t,
          considerTag_replace rx ry bore b₀ t ⟨not_lt.mp h1, h2⟩ h3, ?_, fun _ => ?_⟩
        · rw [mkDetection_distance]
          exact le_of_lt h3
        · rw [mkDetection_distance]
      · exact ⟨b₀, considerTag_keep rx ry bore b₀ t h3, le_refl _, fun _ => not_lt.mp h3⟩
    · exact ⟨b₀, considerTag_not_pass rx ry bore _ t (fun hp => h2 hp.2), le_refl _,
        fun hp => absurd hp.2 h2⟩

theorem considerTag_cases (rx ry bore : ℝ) (b : Option Detection) (t : Tag) :
    considerTag rx ry bore b t = b ∨
      (tagPasses rx ry bore t ∧
        considerTag rx ry bore b t = some (mkDetection rx ry bore t)) := by
  by_cases h1 : VISION_MAX_DISTANCE_M < tagDist rx ry t
  · exact Or.inl (considerTag_skip rx ry bore b t h1)
  · by_cases h2 : |tagOffsetDeg rx ry bore t| ≤ VISION_FOV_H / 2
    · have hp : tagPasses rx ry bore t := ⟨not_lt.mp h1, h2⟩
      cases b with
      | none => exact Or.inr ⟨hp, considerTag_none_pass rx ry bore t hp⟩
      | some b₀ =>
        by_cases h3 : tagDist rx ry t < b₀.distance
        · exact Or.inr ⟨hp, considerTag_replace rx ry bore b₀ t hp h3⟩
        · exact Or.inl (considerTag_keep rx ry bore b₀ t h3)
    · exact Or.inl (considerTag_not_pass rx ry bore b t (fun hp => h2 hp.2))

/-! Lemmas about the whole loop (a left fold over the layout list). -/

theorem scan_from (rx ry bore : ℝ) (ts : List Tag) :
    ∀ b d, ts.foldl (considerTag rx ry bore) b = some d →
      b = some d ∨ ∃ t ∈ ts, tagPasses rx ry bore t ∧ d = mkDetection rx ry bore t := by
  induction ts with
  | nil =>
    intro b d h
    exact Or.inl (by simpa using h)
  | cons t ts ih =>
    intro b d h
    rw [List.foldl_cons] at h
    rcases ih _ d h with hL | ⟨t', ht', hp, hd⟩
    · rcases considerTag_cases rx ry bore b t with hc | ⟨hp, hc⟩
      · rw [hc] at hL
        exact Or.inl hL
      · rw [hc] at hL
        exact Or.inr ⟨t, List.mem_cons_self t ts, hp, (Option.some_inj.mp hL).symm⟩
    · exact Or.inr ⟨t', List.mem_cons_of_mem t ht', hp, hd⟩

theorem scan_min (rx ry bore : ℝ) (ts : List Tag) :
    ∀ b d, ts.foldl (considerTag rx ry bore) b = some d →
      (∀ t ∈ ts, tagPasses rx ry bore t → d.distance ≤ tagDist rx ry t) ∧
      (∀ b₀, b = some b₀ → d.distance ≤ b₀.distance) := by
  induction ts with
  | nil =>
    intro b d h
    simp only [List.foldl_nil] at h
    refine ⟨fun t ht => absurd ht (List.not_mem_nil t), fun b₀ hb => ?_⟩
    rw [hb] at h
    rw [← Option.some_inj.mp h]
  | cons t ts ih =>
    intro b d h
    rw [List.foldl_cons] at h
    obtain ⟨ihts, ihb⟩ := ih _ d h
    constructor
    · intro t' ht' hp'
      rcases List.mem_cons.mp ht' with rfl | hmem
      · cases b with
        | none =>
          have hle := ihb _ (considerTag_none_pass rx ry bore t' hp')
          rw [mkDetection_distance] at hle
          exact hle
        | some b₀ =>
          obtain ⟨b₁, hb₁, _, hpd⟩ := considerTag_some rx ry bore b₀ t'
          exact le_trans (ihb _ hb₁) (hpd hp')
      · exact ihts t' hmem hp'
    · intro b₀ hb
      subst hb
      obtain ⟨b₁, hb₁, hled, _⟩ := considerTag_some rx ry bore b₀ t
      exact le_trans (ihb _ hb₁) hled

theorem foldl_from_some (rx ry bore : ℝ) (ts : List Tag) :
    ∀ b₀, ∃ d, ts.foldl (considerTag rx ry bore) (some b₀) = some d := by
  induction ts with
  | nil => exact fun b₀ => ⟨b₀, rfl⟩
  | cons t ts ih =>
    intro b₀
    obtain ⟨b₁, hb₁, _, _⟩ := considerTag_some rx ry bore b₀ t
    obtain ⟨d, hd⟩ := ih b₁
    exact ⟨d, by rw [List.foldl_cons, hb₁]; exact hd⟩

theorem scan_exists (rx ry bore : ℝ) (ts : List Tag) :
    ∀ b, (∃ t ∈ ts, tagPasses rx ry bore t) →
      ∃ d, ts.foldl (considerTag rx ry bore) b = some d := by
  induction ts with
  | nil =>
    intro b h
    obtain ⟨t, ht, _⟩ := h
    exact absurd ht (List.not_mem_nil t)
  | cons t ts ih =>
    intro b h
    obtain ⟨t', ht', hp'⟩ := h
    rcases List.mem_cons.mp ht' with rfl | hmem
    · cases b with
      | none =>
        obtain ⟨d, hd⟩ := foldl_from_some rx ry bore ts (mkDetection rx ry bore t')
        exact ⟨d, by rw [List.foldl_cons, considerTag_none_pass rx ry bore t' hp']; exact hd⟩
      | some b₀ =>
        obtain ⟨b₁, hb₁, _, _⟩ := considerTag_some rx ry bore b₀ t'
        obtain ⟨d, hd⟩ := foldl_from_some rx ry bore ts b₁
        exact ⟨d, by rw [List.foldl_cons, hb₁]; exact hd⟩
    · obtain ⟨d, hd⟩ := ih (considerTag rx ry bore b t) ⟨t', hmem, hp'⟩
      exact ⟨d, by rw [List.foldl_cons]; exact hd⟩

theorem scan_none (rx ry bore : ℝ) (ts : List Tag) :
    (∀ t ∈ ts, ¬tagPasses rx ry bore t) →
    scanTags rx ry bore ts = none := by
  unfold scanTags
  induction ts with
  | nil => exact fun _ => rfl
  | cons t ts ih =>
    intro h
    rw [List.foldl_cons,
      considerTag_not_pass rx ry bore none t (h t (List.mem_cons_self t ts))]
    exact ih fun t' ht' => h t' (List.mem_cons_of_mem t ht')

/-! Numeric facts about the footprint half-diagonal and the clamp. -/

theorem halfDiagonal_le_one : halfDiagonal ≤ 1 := by
  unfold halfDiagonal ROBOT_LENGTH_M ROBOT_WIDTH_M
  have h1 : Real.sqrt ((0.81 : ℝ) ^ 2 + (0.61 : ℝ) ^ 2) ≤ Real.sqrt 4 :=
    Real.sqrt_le_sqrt (by norm_num)
  have h2 : Real.sqrt (4 : ℝ) = 2 := by
    rw [show (4 : ℝ) = 2 ^ 2 by norm_num, Real.sqrt_sq (by norm_num : (0 : ℝ) ≤ 2)]
  linarith

theorem half_lt_halfDiagonal : (0.5 : ℝ) < halfDiagonal := by
  unfold halfDiagonal ROBOT_LENGTH_M ROBOT_WIDTH_M
  have h1 : Real.sqrt 1 < Real.sqrt ((0.81 : ℝ) ^ 2 + (0.61 : ℝ) ^ 2) :=
    Real.sqrt_lt_sqrt (by norm_num) (by norm_num)
  rw [Real.sqrt_one] at h1
  linarith

theorem clamp_fst (x y : ℝ) : (clamp_to_field_bounds x y).1 =
    max (0 + halfDiagonal) (min (FIELD_WIDTH_M - halfDiagonal) x) := rfl

theorem clamp_snd (x y : ℝ) : (clamp_to_field_bounds x y).2 =
    max (0 + halfDiagonal)
      (min (FIELD_WIDTH_M * (SCREEN_HEIGHT / SCREEN_WIDTH) - halfDiagonal) y) := rfl

theorem field_max_y_eval : FIELD_WIDTH_M * (SCREEN_HEIGHT / SCREEN_WIDTH) = 8.23 := by
  unfold FIELD_WIDTH_M SCREEN_HEIGHT SCREEN_WIDTH
  norm_num

theorem clamp_mem (x y : ℝ) :
    halfDiagonal ≤ (clamp_to_field_bounds x y).1 ∧
    (clamp_to_field_bounds x y).1 ≤ FIELD_WIDTH_M - halfDiagonal ∧
    halfDiagonal ≤ (clamp_to_field_bounds x y).2 ∧
    (clamp_to_field_bounds x y).2 ≤
      FIELD_WIDTH_M * (SCREEN_HEIGHT / SCREEN_WIDTH) - halfDiagonal := by
  have hhd := halfDiagonal_le_one
  have hfw : FIELD_WIDTH_M = 16.46 := rfl
  have hmy := field_max_y_eval
  rw [clamp_fst, clamp_snd]
  refine ⟨?_, ?_, ?_, ?_⟩
  · calc halfDiagonal = 0 + halfDiagonal := (zero_add _).symm
    _ ≤ _ := le_max_left _ _
  · exact max_le (by linarith) (le_trans (min_le_left _ _) (le_refl _))
  · calc halfDiagonal = 0 + halfDiagonal := (zero_add _).symm
    _ ≤ _ := le_max_left _ _
  · exact max_le (by linarith) (le_trans (min_le_left _ _) (le_refl _))

theorem clamp_eq_self (x y : ℝ)
    (hx1 : halfDiagonal ≤ x) (hx2 : x ≤ FIELD_WIDTH_M - halfDiagonal)
    (hy1 : halfDiagonal ≤ y)
    (hy2 : y ≤ FIELD_WIDTH_M * (SCREEN_HEIGHT / SCREEN_WIDTH) - halfDiagonal) :
    clamp_to_field_bounds x y = (x, y) := by
  have h1 : (clamp_to_field_bounds x y).1 = x := by
    rw [clamp_fst, min_eq_right hx2, max_eq_right (by linarith)]
  have h2 : (clamp_to_field_bounds x y).2 = y := by
    rw [clamp_snd, min_eq_right hy2, max_eq_right (by linarith)]
  exact Prod.ext h1 h2

/-! Evaluation helpers for concrete vision inputs. -/

theorem atan2_zero_nonneg (x : ℝ) (hx : 0 ≤ x) : atan2 0 x = 0 := by
  unfold atan2
  rw [show ((x : ℂ) + (0 : ℝ) * Complex.I) = (x : ℂ) by simp]
  exact Complex.arg_ofReal_of_nonneg hx

theorem axis_tag_dist (rx x : ℝ) (i : ℤ) (sz : ℝ) (h : 0 ≤ x - rx) :
    tagDist rx 0 { id := i, x := x, y := 0, size := sz } = x - rx := by
  show Real.sqrt ((x - rx) ^ 2 + ((0 : ℝ) - 0) ^ 2) = x - rx
  rw [show ((x - rx) ^ 2 + ((0 : ℝ) - 0) ^ 2) = (x - rx) ^ 2 by ring]
  exact Real.sqrt_sq h

theorem axis_tag_offset (rx x : ℝ) (i : ℤ) (sz : ℝ) (h : 0 < x - rx) :
    tagOffsetDeg rx 0 0 { id := i, x := x, y := 0, size := sz } = 0 := by
  show normalizeRad (atan2 ((0 : ℝ) - 0) (x - rx) - 0) * 180 / Real.pi = 0
  rw [show ((0 : ℝ) - 0) = 0 from sub_zero 0, atan2_zero_nonneg (x - rx) (le_of_lt h),
    sub_zero, normalizeRad_zero, zero_mul, zero_div]

theorem axis_tag_passes (rx x : ℝ) (i : ℤ) (sz : ℝ) (h0 : 0 < x - rx)
    (hmax : x - rx ≤ 1.85) :
    tagPasses rx 0 0 { id := i, x := x, y := 0, size := sz } := by
  constructor
  · rw [axis_tag_dist rx x i sz (le_of_lt h0)]
    exact hmax
  · rw [axis_tag_offset rx x i sz h0]
    show |(0 : ℝ)| ≤ VISION_FOV_H / 2
    rw [abs_zero]
    show (0 : ℝ) ≤ 62.5 / 2
    norm_num

/-- The normalized delta of the wraparound scenario: the raw heading jumps
from 179 degrees to minus 179 degrees (in radians), and the normalized
difference is plus 2 degrees, not minus 358. -/
theorem normalizeRad_jump_eval :
    normalizeRad (-(179 * Real.pi / 180) - 179 * Real.pi / 180) =
      2 * Real.pi / 180 := by
  have hπ := Real.pi_pos
  unfold normalizeRad
  rw [wrapSub_eq_self _ _ (by nlinarith)]
  rw [wrapAdd_eq, if_pos ⟨hπ, by nlinarith⟩]
  rw [show -(179 * Real.pi / 180) - 179 * Real.pi / 180 + 2 * Real.pi =
      2 * Real.pi / 180 by ring]
  rw [wrapAdd_eq_self _ _ (by nlinarith)]

/-! Concrete inputs reused by the claim counterexamples and witnesses. -/

/-- A Menu-mode state whose pose already sits inside the clamp bounds. -/
noncomputable def menuTestState : DisplayState :=
  { initState with robot_x := 1, robot_y := 1 }

/-- A telemetry snapshot with every key absent. -/
def emptyTelemetry : Telemetry where
  poseX := none
  poseY := none
  poseTheta := none
  vxIn := none
  vyIn := none
  omegaIn := none
  turretIn := none
  hasTargetIn := none
  yawIn := none
  pitchIn := none
  areaIn := none
  areaIdIn := none

/-- An Active-mode state whose single tag is far outside the maximum
detection range (compare the scenario of moving the robot to (10, 0.5): the
tag-to-robot distance is 9.5 m). -/
noncomputable def farTagState : DisplayState :=
  { initState with
    simulation_active := true
    smoothed_x := 0.5
    smoothed_y := 0.5
    apriltag_positions := some [{ id := 1, x := 10, y := 0.5, size := 0.2 }] }

/-! Claim theorems. -/

/-- Claim C1 (amended): after every run of the pose update, in either mode,
robot_x lies in [halfDiagonal, FIELD_WIDTH_M minus halfDiagonal] and robot_y
in [halfDiagonal, field height minus halfDiagonal].  The state written
directly by the Menu to Active transition is not covered: see the
counterexample. -/
theorem c1_update_clamps_to_field_bounds (s : DisplayState) (t : Telemetry) (dt : ℝ) :
    halfDiagonal ≤ (update_pose_data s t dt).robot_x ∧
    (update_pose_data s t dt).robot_x ≤ FIELD_WIDTH_M - halfDiagonal ∧
    halfDiagonal ≤ (update_pose_data s t dt).robot_y ∧
    (update_pose_data s t dt).robot_y ≤
      FIELD_WIDTH_M * (SCREEN_HEIGHT / SCREEN_WIDTH) - halfDiagonal :=
  clamp_mem (if s.simulation_active then t.poseX.getD 0.5 else s.robot_x)
    (if s.simulation_active then t.poseY.getD 0.5 else s.robot_y)

/-- Claim C1 witness: the bound theorem applied to a concrete tick. -/
theorem c1_update_clamps_witness :
    halfDiagonal ≤ (update_pose_data initState emptyTelemetry 1).robot_x ∧
    (update_pose_data initState emptyTelemetry 1).robot_x ≤
      FIELD_WIDTH_M - halfDiagonal ∧
    halfDiagonal ≤ (update_pose_data initState emptyTelemetry 1).robot_y ∧
    (update_pose_data initState emptyTelemetry 1).robot_y ≤
      FIELD_WIDTH_M * (SCREEN_HEIGHT / SCREEN_WIDTH) - halfDiagonal :=
  c1_update_clamps_to_field_bounds initState emptyTelemetry 1

/-- Claim C1 counterexample: the state set by the Menu to Active transition
has x = y = 0.5, and 0.5 is strictly below the half-diagonal lower bound
(half-diagonal is sqrt(0.81 squared plus 0.61 squared) over 2, about 0.507),
so the claimed invariant fails at that state. -/
theorem c1_start_pose_below_half_diagonal :
    (select_alliance initState Alliance.red).robot_x = 0.5 ∧
    (select_alliance initState Alliance.red).robot_y = 0.5 ∧
    (0.5 : ℝ) < halfDiagonal :=
  ⟨rfl, rfl, half_lt_halfDiagonal⟩

/-- Claim C2 (amended): on a Menu-mode tick whose pose is already inside the
clamp bounds (a fixed point of the clamp) and whose previous heading matches
the current one (true in every reachable state after a full tick), the pose
fields are unchanged, and if additionally dt exceeds the 0.001 guard and the
telemetry supplies none of the VX / VY / Omega keys, the velocity fields
come out zero.  The telemetry proviso is necessary: the source applies the
velocity overrides even in Menu mode (see the counterexample). -/
theorem c2_menu_holds_pose_and_zero_velocity (s : DisplayState) (t : Telemetry)
    (dt : ℝ)
    (hsim : s.simulation_active = false)
    (hclamp : clamp_to_field_bounds s.robot_x s.robot_y = (s.robot_x, s.robot_y))
    (hprev : s.prev_theta = s.robot_theta)
    (hvx : t.vxIn = none) (hvy : t.vyIn = none) (hom : t.omegaIn = none)
    (hdt : dt > 0.001) :
    (update_pose_data s t dt).robot_x = s.robot_x ∧
    (update_pose_data s t dt).robot_y = s.robot_y ∧
    (update_pose_data s t dt).robot_theta = s.robot_theta ∧
    (update_pose_data s t dt).robot_vx = 0 ∧
    (update_pose_data s t dt).robot_vy = 0 ∧
    (update_pose_data s t dt).robot_omega = 0 := by
  refine ⟨?_, ?_, ?_, ?_, ?_, ?_⟩ <;>
    simp [update_pose_data, hsim, hclamp, hprev, hvx, hvy, hom, hdt, normalizeRad_zero]

/-- Claim C2 witness: a concrete in-bounds Menu tick with no velocity keys
present keeps the pose and yields zero velocities. -/
theorem c2_menu_holds_pose_witness :
    (update_pose_data menuTestState emptyTelemetry 1).robot_x =
      menuTestState.robot_x ∧
    (update_pose_data menuTestState emptyTelemetry 1).robot_y =
      menuTestState.robot_y ∧
    (update_pose_data menuTestState emptyTelemetry 1).robot_theta =
      menuTestState.robot_theta ∧
    (update_pose_data menuTestState emptyTelemetry 1).robot_vx = 0 ∧
    (update_pose_data menuTestState emptyTelemetry 1).robot_vy = 0 ∧
    (update_pose_data menuTestState emptyTelemetry 1).robot_omega = 0 := by
  have hfw : FIELD_WIDTH_M = 16.46 := rfl
  have hmy := field_max_y_eval
  have hhd := halfDiagonal_le_one
  have hhdp := half_lt_halfDiagonal
  refine c2_menu_holds_pose_and_zero_velocity menuTestState emptyTelemetry 1 rfl ?_ rfl
    rfl rfl rfl (by norm_num)
  show clamp_to_field_bounds 1 1 = ((1 : ℝ), (1 : ℝ))
  exact clamp_eq_self 1 1 (by linarith) (by linarith) (by linarith) (by linarith)

/-- Claim C2 counterexample: in Menu mode the source still applies the
VX / VY overrides read from the pose table, so a tick that supplies VX = VY
= 1 produces robot_vx = 1, not 0, refuting the claim as stated (zero
velocity regardless of what the telemetry supplies). -/
theorem c2_menu_velocity_override_nonzero :
    menuTestState.simulation_active = false ∧
    (update_pose_data menuTestState
      { emptyTelemetry with vxIn := some 1, vyIn := some 1 } 1).robot_vx = 1 ∧
    (1 : ℝ) ≠ 0 :=
  ⟨rfl, rfl, by norm_num⟩

/-- Claim C5 (code divergence): the escape transition sets `menu_active`,
assigns the dead attribute `odometry_active`, and clears the alliance, but
it neither stops the simulation (`simulation_active` keeps its value, so
later ticks still consume telemetry and still run vision) nor clears the
tag layout; the pose fields are untouched.  Concretely, escaping right
after selecting the red alliance leaves the simulation running with the red
layout still installed. -/
theorem c5_escape_leaves_simulation_running :
    (∀ s : DisplayState,
      (escape_to_menu s).simulation_active = s.simulation_active ∧
      (escape_to_menu s).apriltag_positions = s.apriltag_positions ∧
      (escape_to_menu s).alliance = none ∧
      (escape_to_menu s).menu_active = true ∧
      (escape_to_menu s).odometry_active = some false ∧
      (escape_to_menu s).robot_x = s.robot_x ∧
      (escape_to_menu s).robot_y = s.robot_y ∧
      (escape_to_menu s).robot_theta = s.robot_theta ∧
      (escape_to_menu s).robot_vx = s.robot_vx ∧
      (escape_to_menu s).robot_vy = s.robot_vy ∧
      (escape_to_menu s).robot_omega = s.robot_omega) ∧
    (escape_to_menu (select_alliance initState Alliance.red)).simulation_active =
      true ∧
    (escape_to_menu (select_alliance initState Alliance.red)).apriltag_positions =
      some (init_apriltags (some Alliance.red)) :=
  ⟨fun _ => ⟨rfl, rfl, rfl, rfl, rfl, rfl, rfl, rfl, rfl, rfl, rfl⟩, rfl, rfl⟩

/-- Claim C6 (amended): the Menu to Active transition installs the tag
layout for the chosen alliance, sets the pose and the smoothed position,
heading and turret to the start values, and activates the simulation, but
it leaves the smoothed velocities (vx, vy, omega) unchanged rather than
resetting them. -/
theorem c6_setup_transition_effects (s : DisplayState) (a : Alliance) :
    (select_alliance s a).robot_x = 0.5 ∧
    (select_alliance s a).robot_y = 0.5 ∧
    (select_alliance s a).robot_theta = 0 ∧
    (select_alliance s a).smoothed_x = 0.5 ∧
    (select_alliance s a).smoothed_y = 0.5 ∧
    (select_alliance s a).smoothed_theta = 0 ∧
    (select_alliance s a).prev_theta = 0 ∧
    (select_alliance s a).smoothed_turret_angle = 0 ∧
    (select_alliance s a).apriltag_positions = some (init_apriltags (some a)) ∧
    (select_alliance s a).simulation_active = true ∧
    (select_alliance s a).menu_active = false ∧
    (select_alliance s a).smoothed_vx = s.smoothed_vx ∧
    (select_alliance s a).smoothed_vy = s.smoothed_vy ∧
    (select_alliance s a).smoothed_omega = s.smoothed_omega :=
  ⟨rfl, rfl, rfl, rfl, rfl, rfl, rfl, rfl, rfl, rfl, rfl, rfl, rfl, rfl⟩

/-- Claim C6 counterexample: selecting an alliance from a state whose
smoothed vx is 2 leaves the smoothed vx at 2, so the transition does not
reset the smoothed velocities as claimed. -/
theorem c6_setup_keeps_smoothed_velocity :
    (select_alliance { initState with smoothed_vx := 2 } Alliance.red).smoothed_vx =
      2 ∧ (2 : ℝ) ≠ 0 :=
  ⟨rfl, by norm_num⟩

/-- Claim C9: the smoothed heading is updated by adding 0.3 times the
normalized delta between the incoming heading and the smoothed heading, and
on the wraparound jump from 179 degrees to minus 179 degrees (in radians)
the normalized delta is plus 2 degrees, so the smoothed heading moves
forward through 180 degrees (it strictly increases that tick) instead of
swinging back through 0. -/
theorem c9_heading_smoothing_wraparound :
    (∀ (s : DisplayState) (t : Telemetry) (dt : ℝ),
      (update_pose_data s t dt).smoothed_theta =
        s.smoothed_theta + 0.3 * normalizeRad
          ((if s.simulation_active then t.poseTheta.getD 0 else s.robot_theta) -
            s.smoothed_theta)) ∧
    normalizeRad (-(179 * Real.pi / 180) - 179 * Real.pi / 180) =
      2 * Real.pi / 180 ∧
    (update_pose_data
        { initState with
          simulation_active := true
          smoothed_theta := 179 * Real.pi / 180 }
        { emptyTelemetry with poseTheta := some (-(179 * Real.pi / 180)) }
        (1 / 60)).smoothed_theta =
      179 * Real.pi / 180 + 0.3 * (2 * Real.pi / 180) ∧
    179 * Real.pi / 180 <
      (update_pose_data
        { initState with
          simulation_active := true
          smoothed_theta := 179 * Real.pi / 180 }
        { emptyTelemetry with poseTheta := some (-(179 * Real.pi / 180)) }
        (1 / 60)).smoothed_theta := by
  have hval : (update_pose_data
      { initState with
        simulation_active := true
        smoothed_theta := 179 * Real.pi / 180 }
      { emptyTelemetry with poseTheta := some (-(179 * Real.pi / 180)) }
      (1 / 60)).smoothed_theta =
      179 * Real.pi / 180 +
        0.3 * normalizeRad (-(179 * Real.pi / 180) - 179 * Real.pi / 180) := rfl
  refine ⟨fun s t dt => rfl, normalizeRad_jump_eval, ?_, ?_⟩
  · rw [hval, normalizeRad_jump_eval]
  · rw [hval, normalizeRad_jump_eval]
    have hπ := Real.pi_pos
    nlinarith

/-- Claim C3 (amended): both normalizations land in the closed interval
[-c, c] (c being pi or 180), are exact at the upper boundary (c maps to c),
and agree across shifts by whole periods whenever the normalized value lies
strictly inside the interval.  The claimed half-open range (-c, c] and the
unconditional periodicity fail at the boundary: see the counterexample. -/
theorem c3_normalize_range_and_period :
    (∀ θ : ℝ, -Real.pi ≤ normalizeRad θ ∧ normalizeRad θ ≤ Real.pi) ∧
    normalizeRad Real.pi = Real.pi ∧
    (∀ (θ : ℝ) (k : ℤ), -Real.pi < normalizeRad θ → normalizeRad θ < Real.pi →
      normalizeRad (θ + 2 * Real.pi * k) = normalizeRad θ) ∧
    (∀ θ : ℝ, -180 ≤ normalizeDeg θ ∧ normalizeDeg θ ≤ 180) ∧
    normalizeDeg 180 = 180 ∧
    (∀ (θ : ℝ) (k : ℤ), -180 < normalizeDeg θ → normalizeDeg θ < 180 →
      normalizeDeg (θ + 360 * k) = normalizeDeg θ) := by
  have hπ := Real.pi_pos
  refine ⟨fun θ => wrapNorm_mem Real.pi hπ θ,
    normalizeRad_eq_self Real.pi (by linarith) (le_refl _),
    fun θ k h1 h2 => wrapNorm_period Real.pi hπ θ k h1 h2,
    fun θ => wrapNorm_mem 180 (by norm_num) θ,
    wrapNorm_eq_self 180 180 (by norm_num) (by norm_num),
    fun θ k h1 h2 => ?_⟩
  have h := wrapNorm_period 180 (by norm_num) θ k h1 h2
  unfold normalizeDeg
  rw [show θ + 360 * (k : ℝ) = θ + 2 * 180 * (k : ℝ) by ring]
  exact h

/-- Claim C3 witness: the periodicity conjuncts applied at interior points,
one full radian period and two full degree periods away. -/
theorem c3_normalize_range_and_period_witness :
    normalizeRad (1 + 2 * Real.pi * (3 : ℤ)) = normalizeRad 1 ∧
    normalizeDeg (17 + 360 * (2 : ℤ)) = normalizeDeg 17 := by
  have hπ3 := Real.pi_gt_three
  have h1 : normalizeRad 1 = 1 :=
    normalizeRad_eq_self 1 (by linarith) (by linarith)
  have h2 : normalizeDeg 17 = 17 :=
    wrapNorm_eq_self 180 17 (by norm_num) (by norm_num)
  exact ⟨c3_normalize_range_and_period.2.2.1 1 3 (by rw [h1]; linarith)
      (by rw [h1]; linarith),
    c3_normalize_range_and_period.2.2.2.2.2 17 2 (by rw [h2]; norm_num)
      (by rw [h2]; norm_num)⟩

/-- Claim C3 counterexample: the loop maps exactly minus pi to minus pi,
which is outside the claimed half-open interval, and shifting pi down by
one full period changes the normalized value from pi to minus pi, refuting
the claimed unconditional periodicity. -/
theorem c3_normalize_boundary_failure :
    normalizeRad (-Real.pi) = -Real.pi ∧
    ¬(-Real.pi < normalizeRad (-Real.pi)) ∧
    normalizeRad (Real.pi + 2 * Real.pi * (-1 : ℤ)) ≠ normalizeRad Real.pi := by
  have hπ := Real.pi_pos
  have h1 : normalizeRad (-Real.pi) = -Real.pi :=
    normalizeRad_eq_self (-Real.pi) (le_refl _) (by linarith)
  refine ⟨h1, by rw [h1]; exact lt_irrefl _, ?_⟩
  have h2 : Real.pi + 2 * Real.pi * ((-1 : ℤ) : ℝ) = -Real.pi := by
    push_cast
    ring
  rw [h2, h1, normalizeRad_eq_self Real.pi (by linarith) (le_refl _)]
  intro h
  linarith

/-- Claim C4 (amended): on an Active-mode tick on which no tag passes the
range and FOV filters, all six telemetry keys are written together with the
zero / false / minus-one values; but on a tick with the simulation inactive
the call writes only HasTarget and leaves the other five keys unrefreshed,
contrary to the claim (see the counterexample). -/
theorem c4_no_detection_publishes (s : DisplayState) :
    (s.simulation_active = true →
      (∀ t ∈ s.apriltag_positions.getD [],
        ¬tagPasses s.smoothed_x s.smoothed_y
          (s.smoothed_theta + s.turret_angle * Real.pi / 180) t) →
      (check_apriltag_in_fov s).2 =
        [("HasTarget", NTValue.bool false),
         ("Target_Yaw", NTValue.num 0),
         ("Target_Pitch", NTValue.num 0),
         ("Target_Area", NTValue.num 0),
         ("Target_ID", NTValue.num (-1)),
         ("Target_Distance", NTValue.num 0)]) ∧
    (s.simulation_active = false →
      (check_apriltag_in_fov s).2 = [("HasTarget", NTValue.bool false)]) := by
  constructor
  · intro hsim hnone
    unfold check_apriltag_in_fov
    rw [if_neg (by simp [hsim]),
      scan_none s.smoothed_x s.smoothed_y
        (s.smoothed_theta + s.turret_angle * Real.pi / 180)
        (s.apriltag_positions.getD []) hnone]
  · intro hsim
    unfold check_apriltag_in_fov
    rw [if_pos hsim]

/-- Claim C4 witness: with the single tag 9.5 m away (far beyond the 1.85 m
maximum range) the Active-mode call publishes the full zeroed six-key
no-target record. -/
theorem c4_no_detection_publishes_witness :
    (check_apriltag_in_fov farTagState).2 =
      [("HasTarget", NTValue.bool false),
       ("Target_Yaw", NTValue.num 0),
       ("Target_Pitch", NTValue.num 0),
       ("Target_Area", NTValue.num 0),
       ("Target_ID", NTValue.num (-1)),
       ("Target_Distance", NTValue.num 0)] := by
  refine (c4_no_detection_publishes farTagState).1 rfl ?_
  intro t ht
  have ht' : t ∈ [({ id := 1, x := 10, y := 0.5, size := 0.2 } : Tag)] := ht
  rcases List.mem_singleton.mp ht' with rfl
  intro hpass
  have hd : tagDist farTagState.smoothed_x farTagState.smoothed_y
      { id := 1, x := 10, y := 0.5, size := 0.2 } = 9.5 := by
    show Real.sqrt (((10 : ℝ) - 0.5) ^ 2 + ((0.5 : ℝ) - 0.5) ^ 2) = 9.5
    rw [show (((10 : ℝ) - 0.5) ^ 2 + ((0.5 : ℝ) - 0.5) ^ 2) = 9.5 ^ 2 by norm_num]
    exact Real.sqrt_sq (by norm_num)
  have h1 := hpass.1
  rw [hd] at h1
  have h2 : VISION_MAX_DISTANCE_M = 1.85 := rfl
  linarith

/-- Claim C4 counterexample: while the simulation is inactive the call
writes exactly one key, HasTarget, so the other five keys (Target_ID among
them) are not refreshed, refuting the claim that all six are written
together on every no-detection tick. -/
theorem c4_inactive_writes_only_hastarget :
    (check_apriltag_in_fov initState).2 = [("HasTarget", NTValue.bool false)] ∧
    ¬("Target_ID" ∈ (check_apriltag_in_fov initState).2.map Prod.fst) := by
  have h : (check_apriltag_in_fov initState).2 =
      [("HasTarget", NTValue.bool false)] := rfl
  refine ⟨h, ?_⟩
  rw [h]
  intro hmem
  simp only [List.map_cons, List.map_nil, List.mem_singleton] at hmem
  exact absurd hmem (by decide)

/-- Claim C7: whenever some tag survives both filters, the scan returns
exactly one detection, it is the detection of a surviving tag, and its
distance is minimal among all surviving tags; concretely, with surviving
tags at distances 1.0 and 1.5 the scan reports the 1.0 m tag. -/
theorem c7_nearest_tag_wins :
    (∀ (rx ry bore : ℝ) (tags : List Tag),
      (∃ t ∈ tags, tagPasses rx ry bore t) →
      ∃ d, scanTags rx ry bore tags = some d ∧
        (∃ t ∈ tags, tagPasses rx ry bore t ∧ d = mkDetection rx ry bore t) ∧
        (∀ t ∈ tags, tagPasses rx ry bore t → d.distance ≤ tagDist rx ry t)) ∧
    scanTags 0 0 0 [{ id := 1, x := 1, y := 0, size := 0.2 },
        { id := 2, x := 1.5, y := 0, size := 0.2 }] =
      some (mkDetection 0 0 0 { id := 1, x := 1, y := 0, size := 0.2 }) := by
  constructor
  · intro rx ry bore tags hex
    obtain ⟨d, hd⟩ := scan_exists rx ry bore tags none hex
    refine ⟨d, hd, ?_, (scan_min rx ry bore tags none d hd).1⟩
    rcases scan_from rx ry bore tags none d hd with h | h
    · exact absurd h (by simp)
    · exact h
  · have hp1 : tagPasses 0 0 0 { id := 1, x := 1, y := 0, size := 0.2 } :=
      axis_tag_passes 0 1 1 0.2 (by norm_num) (by norm_num)
    have hnl : ¬tagDist 0 0 ({ id := 2, x := 1.5, y := 0, size := 0.2 } : Tag) <
        (mkDetection 0 0 0 { id := 1, x := 1, y := 0, size := 0.2 }).distance := by
      rw [mkDetection_distance, axis_tag_dist 0 1.5 2 0.2 (by norm_num),
        axis_tag_dist 0 1 1 0.2 (by norm_num)]
      norm_num
    unfold scanTags
    rw [List.foldl_cons, considerTag_none_pass 0 0 0 _ hp1, List.foldl_cons,
      considerTag_keep 0 0 0 _ _ hnl, List.foldl_nil]

/-- Claim C7 witness: the nearest-wins theorem applied to the two concrete
surviving tags at distances 1.0 and 1.5. -/
theorem c7_nearest_tag_wins_witness :
    ∃ d, scanTags 0 0 0 [{ id := 1, x := 1, y := 0, size := 0.2 },
        { id := 2, x := 1.5, y := 0, size := 0.2 }] = some d ∧
      (∃ t ∈ [({ id := 1, x := 1, y := 0, size := 0.2 } : Tag),
          { id := 2, x := 1.5, y := 0, size := 0.2 }],
        tagPasses 0 0 0 t ∧ d = mkDetection 0 0 0 t) ∧
      (∀ t ∈ [({ id := 1, x := 1, y := 0, size := 0.2 } : Tag),
          { id := 2, x := 1.5, y := 0, size := 0.2 }],
        tagPasses 0 0 0 t → d.distance ≤ tagDist 0 0 t) :=
  c7_nearest_tag_wins.1 0 0 0 _
    ⟨{ id := 1, x := 1, y := 0, size := 0.2 }, by simp,
      axis_tag_passes 0 1 1 0.2 (by norm_num) (by norm_num)⟩

/-- Claim C8: a reported detection always has distance at most the maximum
range and absolute yaw at most half the horizontal FOV (so a tag beyond the
range, or beyond the half-FOV bearing, is never the reported one); and a
tag whose distance is within range and whose bearing offset is exactly half
the FOV is detected, the angular boundary being inclusive. -/
theorem c8_range_fov_filters :
    (∀ (rx ry bore : ℝ) (tags : List Tag) (d : Detection),
      scanTags rx ry bore tags = some d →
      d.distance ≤ VISION_MAX_DISTANCE_M ∧ |d.yaw| ≤ VISION_FOV_H / 2) ∧
    (∀ (rx ry bore : ℝ) (t : Tag),
      tagDist rx ry t ≤ VISION_MAX_DISTANCE_M →
      |tagOffsetDeg rx ry bore t| = VISION_FOV_H / 2 →
      scanTags rx ry bore [t] = some (mkDetection rx ry bore t)) := by
  constructor
  · intro rx ry bore tags d hd
    rcases scan_from rx ry bore tags none d hd with h | ⟨t, _, hp, rfl⟩
    · exact absurd h (by simp)
    · rw [mkDetection_distance, mkDetection_yaw]
      exact ⟨hp.1, hp.2⟩
  · intro rx ry bore t h1 h2
    have hp : tagPasses rx ry bore t := ⟨h1, le_of_eq h2⟩
    unfold scanTags
    rw [List.foldl_cons, considerTag_none_pass rx ry bore t hp, List.foldl_nil]

/-- Claim C8 witness: a tag 1 m straight ahead with the boresight rotated by
exactly half the FOV (31.25 degrees) sits exactly on the angular boundary
and is detected. -/
theorem c8_range_fov_filters_witness :
    scanTags 0 0 (-(31.25 * Real.pi / 180))
        [{ id := 1, x := 1, y := 0, size := 0.2 }] =
      some (mkDetection 0 0 (-(31.25 * Real.pi / 180))
        { id := 1, x := 1, y := 0, size := 0.2 }) := by
  have hπ := Real.pi_pos
  refine c8_range_fov_filters.2 0 0 (-(31.25 * Real.pi / 180)) _ ?_ ?_
  · rw [axis_tag_dist 0 1 1 0.2 (by norm_num)]
    show (1 : ℝ) - 0 ≤ (1.85 : ℝ)
    norm_num
  · show |normalizeRad (atan2 ((0 : ℝ) - 0) ((1 : ℝ) - 0) -
        -(31.25 * Real.pi / 180)) * 180 / Real.pi| = VISION_FOV_H / 2
    rw [show ((0 : ℝ) - 0) = 0 from sub_zero 0,
      show ((1 : ℝ) - 0) = 1 from sub_zero 1,
      atan2_zero_nonneg 1 (by norm_num),
      show (0 : ℝ) - -(31.25 * Real.pi / 180) = 31.25 * Real.pi / 180 by ring,
      normalizeRad_eq_self _ (by nlinarith) (by nlinarith),
      show 31.25 * Real.pi / 180 * 180 / Real.pi = 31.25 by
        field_simp]
    show |(31.25 : ℝ)| = (62.5 : ℝ) / 2
    rw [abs_of_pos (by norm_num)]
    norm_num

/-- Claim C10: the selection keeps the current best on ties, because a
later tag replaces the best candidate only under a strict distance
comparison; so with two surviving tags at exactly equal distances,
processed in the fixed layout order (bottom-left tag first), the scan
deterministically reports the first one. -/
theorem c10_tie_keeps_first_tag (rx ry bore : ℝ) (t₁ t₂ : Tag)
    (h₁ : tagPasses rx ry bore t₁) (h₂ : tagPasses rx ry bore t₂)
    (heq : tagDist rx ry t₂ = tagDist rx ry t₁) :
    scanTags rx ry bore [t₁, t₂] = some (mkDetection rx ry bore t₁) := by
  unfold scanTags
  rw [List.foldl_cons, considerTag_none_pass rx ry bore t₁ h₁, List.foldl_cons,
    considerTag_keep rx ry bore _ t₂
      (by rw [mkDetection_distance, heq]; exact lt_irrefl _),
    List.foldl_nil]

/-- Claim C10 witness: two surviving tags at the same spot (equal distances)
with different ids; the scan reports the first one. -/
theorem c10_tie_keeps_first_tag_witness :
    scanTags 0 0 0 [{ id := 1, x := 1, y := 0, size := 0.2 },
        { id := 2, x := 1, y := 0, size := 0.2 }] =
      some (mkDetection 0 0 0 { id := 1, x := 1, y := 0, size := 0.2 }) :=
  c10_tie_keeps_first_tag 0 0 0 _ _
    (axis_tag_passes 0 1 1 0.2 (by norm_num) (by norm_num))
    (axis_tag_passes 0 1 2 0.2 (by norm_num) (by norm_num))
    rfl

end RobotDisplay
